import Mathlib

/-!
Verification development for the elm mirror server (elm_mirror.py).

The registry is the JSON object with a "packages" field holding a list of
entries; we embed it as the list of entries directly.  Statuses are the
string constants of the source.  Files on disk are embedded by their
relevant parsed content: hash.json by the digest string it stores (or
none when the file is absent), package.zip by its byte contents as a list
of naturals, elm.json by its presence.  The SHA-1 primitive of hashlib is
embedded abstractly as a function from byte contents to hex string; the
streaming update discipline of hashlib (each update appends bytes to the
hashed stream) is embedded by concatenating the chunks fed to it.
-/

/-- STATUS_SUCCESS constant of the source. -/
def STATUS_SUCCESS : String := "success"

/-- STATUS_PENDING constant of the source. -/
def STATUS_PENDING : String := "pending"

/-- STATUS_FAILED constant of the source. -/
def STATUS_FAILED : String := "failed"

/-- STATUS_IGNORED constant of the source. -/
def STATUS_IGNORED : String := "ignored"

/-- One registry entry: the dict with fields id and status kept in
registry["packages"]. -/
structure Entry where
  id : String
  status : String
deriving DecidableEq, Repr

/-- get_package_status: scan registry["packages"] in order and return the
status of the first entry whose id matches, or None. -/
def get_package_status : List Entry → String → Option String
  | [], _ => none
  | pkg :: rest, package_id =>
    if pkg.id = package_id then some pkg.status
    else get_package_status rest package_id

/-- set_package_status: update the status of the first entry whose id
matches in place; if no entry matches, append a new entry at the end. -/
def set_package_status : List Entry → String → String → List Entry
  | [], package_id, status => [⟨package_id, status⟩]
  | pkg :: rest, package_id, status =>
    if pkg.id = package_id then ⟨pkg.id, status⟩ :: rest
    else pkg :: set_package_status rest package_id status

/-- Split a character list at the first occurrence of a given character;
none if the character does not occur. -/
def splitAtFirst (c : Char) : List Char → Option (List Char × List Char)
  | [] => none
  | x :: xs =>
    if x = c then some ([], xs)
    else (splitAtFirst c xs).map (fun p => (x :: p.1, p.2))

/-- Drop a single trailing newline character, if present.  The dollar
anchor of a Python regular expression matches either at the end of the
string or just before one final newline. -/
def dropTrailingNewline (l : List Char) : List Char :=
  if l.getLast? = some '\n' then l.dropLast else l

/-- Core of parse_package_id over character lists.  The source matches the
anchored regular expression with groups: author = one or more non-slash
characters (so: everything up to the first slash, nonempty), name = one or
more non-at characters after the slash (everything up to the next at sign,
nonempty), version = one or more arbitrary non-newline characters up to the
end, where a single trailing newline of the whole string is tolerated by
the dollar anchor. -/
def parseCore (s : List Char) : Option (List Char × List Char × List Char) :=
  match splitAtFirst '/' s with
  | none => none
  | some (author, rest) =>
    if author.isEmpty then none
    else
      match splitAtFirst '@' rest with
      | none => none
      | some (name, raw) =>
        if name.isEmpty then none
        else
          let version := dropTrailingNewline raw
          if version.isEmpty then none
          else if version.contains '\n' then none
          else some (author, name, version)

/-- parse_package_id: parse "author/name@version" into its three
components; none embeds the ValueError raised on a failed match. -/
def parse_package_id (package_id : String) : Option (String × String × String) :=
  (parseCore package_id.data).map
    (fun t => (String.mk t.1, String.mk t.2.1, String.mk t.2.2))

/-- should_sync_package: with no package list every package is synced;
otherwise first check exact membership of the identifier, then membership
of the "author/name" form.  A malformed identifier that is not an exact
member raises ValueError from parse_package_id, embedded as none. -/
def should_sync_package (package_id : String) (package_list : Option (List String)) :
    Option Bool :=
  match package_list with
  | none => some true
  | some pl =>
    if package_id ∈ pl then some true
    else
      match parse_package_id package_id with
      | none => none
      | some (author, name, _) => some (decide ((author ++ "/" ++ name) ∈ pl))

/-- The allow-list condition of the spec: the identifier matches an exact
"author/name@version" entry of the policy, or its "author/name" form
matches an entry. -/
def matchesPolicy (package_id : String) (package_list : List String) : Bool :=
  decide (package_id ∈ package_list) ||
    (match parse_package_id package_id with
     | some (author, name, _) => decide ((author ++ "/" ++ name) ∈ package_list)
     | none => false)

/-- An HTTP response of the serving layer: error responses carry the code
and the message placed in the JSON error body produced by _error_response;
endpointOk is the 200 response of _serve_endpoint_json with its url and
hash fields; fileOk is the 200 response of _serve_static_file with its
content type and the file bytes. -/
inductive Response where
  | error (code : Nat) (message : String)
  | endpointOk (url : String) (hash : String)
  | fileOk (contentType : String) (content : List Nat)
deriving DecidableEq, Repr

/-- The HTTP status code of a response (200 for the two success forms). -/
def responseCode : Response → Nat
  | .error c _ => c
  | .endpointOk _ _ => 200
  | .fileOk _ _ => 200

/-- _serve_all_packages_since after parsing n from the path: with
n greater than or equal to the number of entries return the empty list,
otherwise the identifiers of the first (total - n) entries of the
in-memory registry order. -/
def serveAllPackagesSince (registry : List Entry) (n : Nat) : List String :=
  if registry.length ≤ n then []
  else (registry.take (registry.length - n)).map Entry.id

/-- _serve_endpoint_json after the path regular expression has matched,
yielding author, name and version.  hashFile is the digest stored in
hash.json for this package, or none when the file is absent. -/
def serveEndpointJson (registry : List Entry) (baseUrl author name version : String)
    (hashFile : Option String) : Response :=
  let package_id := author ++ "/" ++ name ++ "@" ++ version
  let status := get_package_status registry package_id
  if status = some STATUS_PENDING then
    Response.error 503 ("Package " ++ package_id ++ " has not been downloaded yet")
  else if status = some STATUS_FAILED then
    Response.error 503 ("Package " ++ package_id ++ " failed to download and is not available")
  else if status = some STATUS_IGNORED then
    Response.error 503 ("Package " ++ package_id ++ " is not available on this mirror")
  else
    match hashFile with
    | none => Response.error 404 "Package hash not found"
    | some h =>
      Response.endpointOk
        (baseUrl ++ "/packages/" ++ author ++ "/" ++ name ++ "/" ++ version ++ "/package.zip") h

/-- Whether two adjacent dot characters occur anywhere in a character
list: the substring test of the Python expression testing the
two-dot sequence against the request path. -/
def hasDotDot : List Char → Bool
  | [] => false
  | [_] => false
  | x :: y :: rest => (x = '.' && y = '.') || hasDotDot (y :: rest)

/-- The two-dot substring test on a string. -/
def containsDotDot (s : String) : Bool := hasDotDot s.data

/-- _serve_static_file at a request path of the shape
/packages/(author)/(name)/(version)/package.zip whose three components
contain no slash, so the package.zip regular expression matches.  The
source first tests whether the two-dot sequence occurs anywhere in the
path as a substring and answers 400 if so, before the existence check and
the status gate.  For slash-free components that substring occurs exactly
when one of the three components contains it: the fixed path segments
"/packages/", the separating slashes and "/package.zip" contribute no
adjacent dots, and any occurrence spanning a boundary would have to
include a slash or the dot of ".zip" (preceded by the letter e).
zipFile is the content of the package.zip file on disk, or none when it
is absent; only after the traversal check does the source check file
existence (404), then the registry status gate, before serving the bytes
with the zip content type. -/
def servePackageZip (registry : List Entry) (author name version : String)
    (zipFile : Option (List Nat)) : Response :=
  if containsDotDot author || containsDotDot name || containsDotDot version then
    Response.error 400 "Invalid path"
  else
    match zipFile with
    | none => Response.error 404 "File not found"
    | some content =>
      let package_id := author ++ "/" ++ name ++ "@" ++ version
      let status := get_package_status registry package_id
      if status = some STATUS_PENDING then
        Response.error 503 ("Package " ++ package_id ++ " has not been downloaded yet")
      else if status = some STATUS_FAILED then
        Response.error 503 ("Package " ++ package_id ++ " failed to download")
      else if status = some STATUS_IGNORED then
        Response.error 503 ("Package " ++ package_id ++ " is not available on this mirror")
      else
        Response.fileOk "application/zip" content

/-- The state threaded through the new-package discovery loop of run_sync:
the entry list of the registry, the existing_ids set (as a list of
identifiers), and the accumulated new_packages list in discovery order. -/
structure SyncState where
  packages : List Entry
  existing : List String
  newPackages : List String
deriving DecidableEq, Repr

/-- The new-package discovery loop of run_sync: walk the upstream listing
in order; every identifier not yet known is inserted at index 0 of the
entry list with status pending, added to existing_ids, and appended to
new_packages. -/
def syncDiffLoop : List String → SyncState → SyncState
  | [], s => s
  | pkg_id :: rest, s =>
    if pkg_id ∈ s.existing then syncDiffLoop rest s
    else
      syncDiffLoop rest
        ⟨⟨pkg_id, STATUS_PENDING⟩ :: s.packages,
          pkg_id :: s.existing,
          s.newPackages ++ [pkg_id]⟩

/-- The discovery phase of run_sync: existing_ids starts as the set of
identifiers already in the registry, new_packages starts empty. -/
def runSyncDiff (remote : List String) (registry : List Entry) : SyncState :=
  syncDiffLoop remote ⟨registry, registry.map Entry.id, []⟩

/-- The package-list filtering step of run_sync: walk the work-list in
order; an identifier that should be synced is kept, any other identifier
is dropped and immediately marked ignored in the registry.  none embeds
the ValueError that a malformed identifier raises out of
should_sync_package. -/
def filterWorklist (package_list : List String) :
    List String → List Entry → Option (List String × List Entry)
  | [], registry => some ([], registry)
  | pkg_id :: rest, registry =>
    match should_sync_package pkg_id (some package_list) with
    | none => none
    | some true =>
      match filterWorklist package_list rest registry with
      | none => none
      | some (filtered, registry2) => some (pkg_id :: filtered, registry2)
    | some false =>
      filterWorklist package_list rest
        (set_package_status registry pkg_id STATUS_IGNORED)

/-- The observable outcome of the network and filesystem operations inside
the try block of sync_package for one package: either some fetch or IO
operation raised, or everything succeeded yielding the expected digest
from endpoint.json and the digest actually computed over the downloaded
archive. -/
inductive SyncOutcome where
  | fetchError
  | fetched (expectedHash actualHash : String)
deriving DecidableEq, Repr

/-- Whether an outcome makes sync_package fail: any raised error does, and
so does a digest mismatch. -/
def outcomeFailed : SyncOutcome → Bool
  | .fetchError => true
  | .fetched expected actual => decide (actual ≠ expected)

/-- sync_package: parse the identifier (outside the try block, so a
malformed identifier propagates as none); on any fetch or IO error mark
the package failed and return False; on a digest mismatch mark it failed
and return False; otherwise mark it success and return True. -/
def sync_package (package_id : String) (outcome : SyncOutcome) (registry : List Entry) :
    Option (Bool × List Entry) :=
  match parse_package_id package_id with
  | none => none
  | some _ =>
    match outcome with
    | .fetchError => some (false, set_package_status registry package_id STATUS_FAILED)
    | .fetched expected actual =>
      if actual ≠ expected then
        some (false, set_package_status registry package_id STATUS_FAILED)
      else
        some (true, set_package_status registry package_id STATUS_SUCCESS)

/-- The download loop of run_sync over the filtered work-list: each
package is synced in order, bumping the success or failure counter, and
the loop always proceeds to the next package.  outcomes gives the network
outcome for each identifier. -/
def syncLoop (outcomes : String → SyncOutcome) :
    List String → List Entry → Nat → Nat → Option (Nat × Nat × List Entry)
  | [], registry, succ, fail => some (succ, fail, registry)
  | pkg_id :: rest, registry, succ, fail =>
    match sync_package pkg_id (outcomes pkg_id) registry with
    | none => none
    | some (true, registry2) => syncLoop outcomes rest registry2 (succ + 1) fail
    | some (false, registry2) => syncLoop outcomes rest registry2 succ (fail + 1)

/-- The read loop of compute_sha1: read fixed-size chunks until read
returns empty.  A read of size zero returns the empty chunk at once, so
the loop body never runs in that case. -/
def readChunks (chunkSize : Nat) : List Nat → List (List Nat)
  | [] => []
  | x :: xs =>
    if _h : chunkSize = 0 then []
    else
      List.take chunkSize (x :: xs) :: readChunks chunkSize (List.drop chunkSize (x :: xs))
termination_by l => l.length
decreasing_by
  simp [List.length_drop]
  omega

/-- compute_sha1: feed the file contents to the streaming hash in
fixed-size chunks.  The hashlib streaming interface hashes the
concatenation of all bytes passed to update, so the digest produced is
the abstract digest function applied to the joined chunks. -/
def compute_sha1 (digest : List Nat → String) (chunkSize : Nat) (contents : List Nat) :
    String :=
  digest (List.flatten (readChunks chunkSize contents))

/-- The on-disk artifact set of one package as run_verify inspects it:
package.zip by its bytes (none when absent), hash.json by the digest it
records (none when the file is absent, some none when it is present but
fails to parse or lacks the hash key), and whether elm.json exists. -/
structure StoredPackage where
  zip : Option (List Nat)
  hashRecord : Option (Option String)
  elmJson : Bool
deriving DecidableEq, Repr

/-- The per-package checks of run_verify, in source order: package.zip
exists, hash.json exists, hash.json parses with a hash key, the
recomputed digest of package.zip equals the recorded hash, elm.json
exists.  Returns the first collected error message, or none when all
checks pass.  The invalid hash.json message of the source also carries
the exception text, abstracted away here. -/
def verify_package (digest : List Nat → String) (package_id : String)
    (sp : StoredPackage) : Option String :=
  match sp.zip with
  | none => some (package_id ++ ": package.zip missing")
  | some zipBytes =>
    match sp.hashRecord with
    | none => some (package_id ++ ": hash.json missing")
    | some none => some (package_id ++ ": invalid hash.json")
    | some (some expected) =>
      if digest zipBytes ≠ expected then
        some (package_id ++ ": hash mismatch (expected " ++ expected ++ ", got "
          ++ digest zipBytes ++ ")")
      else if sp.elmJson = false then
        some (package_id ++ ": elm.json missing")
      else none

/-- The error-collection sweep of run_verify over the registry entries
with status success: parse each identifier (a malformed success
identifier raises, embedded as none), look up its artifact set in the
content store by author, name and version, and collect the first error of
each failing package without aborting the sweep. -/
def collectVerifyErrors (digest : List Nat → String)
    (store : String → String → String → StoredPackage) :
    List Entry → Option (List String)
  | [] => some []
  | pkg :: rest =>
    if pkg.status = STATUS_SUCCESS then
      match parse_package_id pkg.id with
      | none => none
      | some (author, name, version) =>
        match verify_package digest pkg.id (store author name version) with
        | none => collectVerifyErrors digest store rest
        | some err =>
          match collectVerifyErrors digest store rest with
          | none => none
          | some errs => some (err :: errs)
    else collectVerifyErrors digest store rest

/-- run_verify: an empty registry passes at once; otherwise sweep the
success entries collecting errors and pass exactly when zero errors were
collected. -/
def run_verify (digest : List Nat → String)
    (store : String → String → String → StoredPackage)
    (registry : List Entry) : Option Bool :=
  if registry.isEmpty then some true
  else (collectVerifyErrors digest store registry).map List.isEmpty

/-! Lemmas about the registry upsert. -/

theorem get_set_self (registry : List Entry) (package_id status : String) :
    get_package_status (set_package_status registry package_id status) package_id =
      some status := by
  induction registry with
  | nil => simp [set_package_status, get_package_status]
  | cons pkg rest ih =>
    by_cases h : pkg.id = package_id
    · simp [set_package_status, get_package_status, h]
    · simp [set_package_status, get_package_status, h, ih]

theorem get_set_ne (registry : List Entry) (package_id status other : String)
    (h : other ≠ package_id) :
    get_package_status (set_package_status registry package_id status) other =
      get_package_status registry other := by
  induction registry with
  | nil => simp [set_package_status, get_package_status, Ne.symm h]
  | cons pkg rest ih =>
    by_cases hp : pkg.id = package_id
    · simp [set_package_status, get_package_status, hp, Ne.symm h]
    · by_cases ho : pkg.id = other
      · simp [set_package_status, get_package_status, hp, ho, h]
      · simp [set_package_status, get_package_status, hp, ho, ih]

theorem set_append_of_get_none (registry : List Entry) (package_id status : String)
    (h : get_package_status registry package_id = none) :
    set_package_status registry package_id status = registry ++ [⟨package_id, status⟩] := by
  induction registry with
  | nil => simp [set_package_status]
  | cons pkg rest ih =>
    by_cases hp : pkg.id = package_id
    · simp [get_package_status, hp] at h
    · simp [get_package_status, hp] at h
      simp [set_package_status, hp, ih h]

theorem set_map_id_of_get_some (registry : List Entry) (package_id status : String)
    (h : get_package_status registry package_id ≠ none) :
    (set_package_status registry package_id status).map Entry.id =
      registry.map Entry.id := by
  induction registry with
  | nil => simp [get_package_status] at h
  | cons pkg rest ih =>
    by_cases hp : pkg.id = package_id
    · simp [set_package_status, hp]
    · simp [get_package_status, hp] at h
      simp [set_package_status, hp, ih h]

/-- Claim C6: for every registry, identifier and status, set_package_status
followed by get_package_status on the same identifier returns the status
just set; when the identifier is absent the entry is appended, when it is
present the entry is updated in place (the identifier sequence of the list
is unchanged) and every other identifier keeps its status. -/
theorem c6_set_get_upsert (registry : List Entry) (package_id status : String) :
    get_package_status (set_package_status registry package_id status) package_id =
      some status ∧
    (get_package_status registry package_id = none →
      set_package_status registry package_id status = registry ++ [⟨package_id, status⟩]) ∧
    (get_package_status registry package_id ≠ none →
      (set_package_status registry package_id status).map Entry.id =
        registry.map Entry.id) ∧
    (∀ other, other ≠ package_id →
      get_package_status (set_package_status registry package_id status) other =
        get_package_status registry other) :=
  ⟨get_set_self registry package_id status,
    set_append_of_get_none registry package_id status,
    set_map_id_of_get_some registry package_id status,
    fun other h => get_set_ne registry package_id status other h⟩

/-- Witness for c6_set_get_upsert at a concrete registry: the identifier
is absent, so the upsert appends and a subsequent lookup finds the status
just set. -/
theorem c6_witness :
    get_package_status [⟨"a/b@1.0.0", "pending"⟩] "c/d@2.0.0" = none ∧
    set_package_status [⟨"a/b@1.0.0", "pending"⟩] "c/d@2.0.0" "success" =
      [⟨"a/b@1.0.0", "pending"⟩, ⟨"c/d@2.0.0", "success"⟩] ∧
    get_package_status
      (set_package_status [⟨"a/b@1.0.0", "pending"⟩] "c/d@2.0.0" "success")
      "c/d@2.0.0" = some "success" :=
  ⟨by decide,
    (c6_set_get_upsert [⟨"a/b@1.0.0", "pending"⟩] "c/d@2.0.0" "success").2.1 (by decide),
    (c6_set_get_upsert [⟨"a/b@1.0.0", "pending"⟩] "c/d@2.0.0" "success").1⟩

/-- Claim C3: the endpoint.json route answers 503 with a status-specific
message for pending, failed and ignored identifiers (the pending body ends
in "has not been downloaded yet"), and for a success identifier whose
hash.json is present it answers 200 with the stored digest and a url built
from the mirror base, never the upstream base. -/
theorem c3_endpoint_json_gate (registry : List Entry)
    (baseUrl author name version : String) (hashFile : Option String) :
    (get_package_status registry (author ++ "/" ++ name ++ "@" ++ version) =
        some STATUS_PENDING →
      serveEndpointJson registry baseUrl author name version hashFile =
        Response.error 503
          ("Package " ++ (author ++ "/" ++ name ++ "@" ++ version) ++
            " has not been downloaded yet")) ∧
    (get_package_status registry (author ++ "/" ++ name ++ "@" ++ version) =
        some STATUS_FAILED →
      serveEndpointJson registry baseUrl author name version hashFile =
        Response.error 503
          ("Package " ++ (author ++ "/" ++ name ++ "@" ++ version) ++
            " failed to download and is not available")) ∧
    (get_package_status registry (author ++ "/" ++ name ++ "@" ++ version) =
        some STATUS_IGNORED →
      serveEndpointJson registry baseUrl author name version hashFile =
        Response.error 503
          ("Package " ++ (author ++ "/" ++ name ++ "@" ++ version) ++
            " is not available on this mirror")) ∧
    (get_package_status registry (author ++ "/" ++ name ++ "@" ++ version) =
        some STATUS_SUCCESS →
      ∀ digest, hashFile = some digest →
        serveEndpointJson registry baseUrl author name version hashFile =
          Response.endpointOk
            (baseUrl ++ "/packages/" ++ author ++ "/" ++ name ++ "/" ++ version
              ++ "/package.zip") digest) := by
  refine ⟨?_, ?_, ?_, ?_⟩
  · intro hs
    simp [serveEndpointJson, hs, STATUS_PENDING]
  · intro hs
    simp [serveEndpointJson, hs, STATUS_PENDING, STATUS_FAILED]
  · intro hs
    simp [serveEndpointJson, hs, STATUS_PENDING, STATUS_FAILED, STATUS_IGNORED]
  · intro hs digest hd
    subst hd
    simp [serveEndpointJson, hs, STATUS_PENDING, STATUS_FAILED, STATUS_IGNORED,
      STATUS_SUCCESS]

/-- Witness for c3_endpoint_json_gate: a pending package answers 503 with
the expected body, a success package with a stored digest answers 200
with the mirror url and that digest. -/
theorem c3_witness :
    serveEndpointJson [⟨"a/b@1.0.0", "pending"⟩, ⟨"c/d@2.0.0", "success"⟩]
        "https://mirror" "a" "b" "1.0.0" none =
      Response.error 503 "Package a/b@1.0.0 has not been downloaded yet" ∧
    serveEndpointJson [⟨"a/b@1.0.0", "pending"⟩, ⟨"c/d@2.0.0", "success"⟩]
        "https://mirror" "c" "d" "2.0.0" (some "beef") =
      Response.endpointOk "https://mirror/packages/c/d/2.0.0/package.zip" "beef" := by
  constructor
  · have h2 := (c3_endpoint_json_gate
      [⟨"a/b@1.0.0", "pending"⟩, ⟨"c/d@2.0.0", "success"⟩]
      "https://mirror" "a" "b" "1.0.0" none).1 (by decide)
    rw [h2]
    decide
  · have h2 := (c3_endpoint_json_gate
      [⟨"a/b@1.0.0", "pending"⟩, ⟨"c/d@2.0.0", "success"⟩]
      "https://mirror" "c" "d" "2.0.0" (some "beef")).2.2.2 (by decide) "beef" rfl
    rw [h2]
    decide

/-- Claim C4: the catalog-delta endpoint returns all identifiers in
registry order for n equal to zero, the empty list for n at least the
total, and the identifiers of the first k entries for n equal to
total minus k. -/
theorem c4_all_packages_since (registry : List Entry) (n k : Nat) :
    serveAllPackagesSince registry 0 = registry.map Entry.id ∧
    (registry.length ≤ n → serveAllPackagesSince registry n = []) ∧
    (0 < k → k ≤ registry.length →
      serveAllPackagesSince registry (registry.length - k) =
        (registry.take k).map Entry.id) := by
  refine ⟨?_, ?_, ?_⟩
  · by_cases h0 : registry.length ≤ 0
    · have hnil : registry = [] := List.length_eq_zero.mp (Nat.le_zero.mp h0)
      subst hnil
      simp [serveAllPackagesSince]
    · simp [serveAllPackagesSince, h0]
  · intro h
    simp [serveAllPackagesSince, h]
  · intro hk hkl
    have hcond : ¬ registry.length ≤ registry.length - k := by omega
    have harg : registry.length - (registry.length - k) = k := by omega
    simp [serveAllPackagesSince, hcond, harg]

/-- Witness for c4_all_packages_since on a three-entry registry with
k equal to two: exactly the first two identifiers come back. -/
theorem c4_witness :
    serveAllPackagesSince
      [⟨"x/y@3.0.0", "success"⟩, ⟨"x/y@2.0.0", "success"⟩, ⟨"x/y@1.0.0", "success"⟩]
      1 = ["x/y@3.0.0", "x/y@2.0.0"] := by
  have h2 := (c4_all_packages_since
    [⟨"x/y@3.0.0", "success"⟩, ⟨"x/y@2.0.0", "success"⟩, ⟨"x/y@1.0.0", "success"⟩]
    0 2).2.2 (by decide) (by decide)
  simpa using h2

/-- Counterexample to claim C10 as stated: for an identifier with no
registry entry whose version component contains two adjacent dots, the
package.zip route answers 400 from the traversal check even though the
archive file exists on disk, not the 200 the claim asserts (nor 404). -/
theorem c10_counterexample_dotdot_400 :
    get_package_status [] ("a" ++ "/" ++ "b" ++ "@" ++ "1..0") = none ∧
    servePackageZip [] "a" "b" "1..0" (some [1, 2, 3]) =
      Response.error 400 "Invalid path" ∧
    responseCode (servePackageZip [] "a" "b" "1..0" (some [1, 2, 3])) = 400 ∧
    (400 : Nat) ≠ 200 ∧ (400 : Nat) ≠ 404 := by
  decide

/-- Claim C10 as amended: an identifier with no registry entry at all is
not gated with 503 by either route.  The endpoint.json route serves the
stored digest with 200 when hash.json exists and 404 otherwise.  The
package.zip route, provided no path component contains two adjacent dots,
serves the bytes with 200 when the file exists and 404 otherwise; when a
component does contain two adjacent dots the traversal check answers 400
regardless of the registry and of the disk. -/
theorem c10_absent_status_not_gated (registry : List Entry)
    (baseUrl author name version : String) (hashFile : Option String)
    (zipFile : Option (List Nat))
    (habs : get_package_status registry (author ++ "/" ++ name ++ "@" ++ version) = none) :
    (hashFile = none →
      serveEndpointJson registry baseUrl author name version hashFile =
        Response.error 404 "Package hash not found") ∧
    (∀ digest, hashFile = some digest →
      serveEndpointJson registry baseUrl author name version hashFile =
        Response.endpointOk
          (baseUrl ++ "/packages/" ++ author ++ "/" ++ name ++ "/" ++ version
            ++ "/package.zip") digest) ∧
    ((containsDotDot author || containsDotDot name || containsDotDot version) = false →
      (zipFile = none →
        servePackageZip registry author name version zipFile =
          Response.error 404 "File not found") ∧
      (∀ content, zipFile = some content →
        servePackageZip registry author name version zipFile =
          Response.fileOk "application/zip" content)) ∧
    ((containsDotDot author || containsDotDot name || containsDotDot version) = true →
      ∀ zf, servePackageZip registry author name version zf =
        Response.error 400 "Invalid path") := by
  refine ⟨?_, ?_, ?_, ?_⟩
  · intro hf
    subst hf
    simp [serveEndpointJson, habs]
  · intro digest hf
    subst hf
    simp [serveEndpointJson, habs]
  · intro hdd
    constructor
    · intro hz
      subst hz
      simp [servePackageZip, hdd]
    · intro content hz
      subst hz
      simp [servePackageZip, hdd, habs]
  · intro hdd zf
    simp [servePackageZip, hdd]

/-- Witness for c10_absent_status_not_gated on the empty registry: the
stored digest and the archive bytes are served with 200 responses. -/
theorem c10_witness :
    serveEndpointJson [] "https://mirror" "a" "b" "1.0.0" (some "abc") =
      Response.endpointOk "https://mirror/packages/a/b/1.0.0/package.zip" "abc" ∧
    servePackageZip [] "a" "b" "1.0.0" (some [1, 2, 3]) =
      Response.fileOk "application/zip" [1, 2, 3] := by
  constructor
  · have h2 := (c10_absent_status_not_gated [] "https://mirror" "a" "b" "1.0.0"
      (some "abc") (some [1, 2, 3]) (by decide)).2.1 "abc" rfl
    rw [h2]
    decide
  · exact ((c10_absent_status_not_gated [] "https://mirror" "a" "b" "1.0.0"
      (some "abc") (some [1, 2, 3]) (by decide)).2.2.1 (by decide)).2 [1, 2, 3] rfl

/-- Counterexample to claim C2 as stated: a pending package whose archive
file is absent from disk is answered 404 by the package.zip route, not
503, because the existence check of _serve_static_file runs before the
status gate. -/
theorem c2_counterexample_missing_zip_404 :
    get_package_status [⟨"a/b@1.0.0", STATUS_PENDING⟩]
      ("a" ++ "/" ++ "b" ++ "@" ++ "1.0.0") = some STATUS_PENDING ∧
    servePackageZip [⟨"a/b@1.0.0", STATUS_PENDING⟩] "a" "b" "1.0.0" none =
      Response.error 404 "File not found" ∧
    responseCode
      (servePackageZip [⟨"a/b@1.0.0", STATUS_PENDING⟩] "a" "b" "1.0.0" none) = 404 ∧
    (404 : Nat) ≠ 503 := by
  decide

/-- Claim C2 as amended: for a package.zip request whose identifier has
status pending, failed or ignored: when a path component contains two
adjacent dots the traversal check answers 400 before everything else;
otherwise the route answers 404 when the archive file is absent (the
existence check precedes the status gate) and 503 with a status-specific
JSON error body when the archive file exists (the same status conditions
as the endpoint.json gate, with a shorter failed-status message); in no
case does it stream file bytes. -/
theorem c2_amended_zip_gate (registry : List Entry) (author name version : String)
    (hgate : get_package_status registry (author ++ "/" ++ name ++ "@" ++ version) =
        some STATUS_PENDING ∨
      get_package_status registry (author ++ "/" ++ name ++ "@" ++ version) =
        some STATUS_FAILED ∨
      get_package_status registry (author ++ "/" ++ name ++ "@" ++ version) =
        some STATUS_IGNORED) :
    (∀ zipFile,
      (containsDotDot author || containsDotDot name || containsDotDot version) = true →
      servePackageZip registry author name version zipFile =
        Response.error 400 "Invalid path") ∧
    ((containsDotDot author || containsDotDot name || containsDotDot version) = false →
      servePackageZip registry author name version none =
        Response.error 404 "File not found") ∧
    (∀ content,
      (containsDotDot author || containsDotDot name || containsDotDot version) = false →
      servePackageZip registry author name version (some content) =
      Response.error 503
        (if get_package_status registry (author ++ "/" ++ name ++ "@" ++ version) =
            some STATUS_PENDING then
          "Package " ++ (author ++ "/" ++ name ++ "@" ++ version) ++
            " has not been downloaded yet"
        else if get_package_status registry (author ++ "/" ++ name ++ "@" ++ version) =
            some STATUS_FAILED then
          "Package " ++ (author ++ "/" ++ name ++ "@" ++ version) ++
            " failed to download"
        else
          "Package " ++ (author ++ "/" ++ name ++ "@" ++ version) ++
            " is not available on this mirror")) ∧
    (∀ zipFile contentType content,
      servePackageZip registry author name version zipFile ≠
        Response.fileOk contentType content) := by
  refine ⟨?_, ?_, ?_, ?_⟩
  · intro zipFile hdd
    simp [servePackageZip, hdd]
  · intro hdd
    simp [servePackageZip, hdd]
  · intro content hdd
    rcases hgate with hs | hs | hs <;>
      simp [servePackageZip, hdd, hs, STATUS_PENDING, STATUS_FAILED, STATUS_IGNORED]
  · intro zipFile contentType content
    by_cases hdd :
        (containsDotDot author || containsDotDot name || containsDotDot version) = true
    · simp [servePackageZip, hdd]
    · rw [Bool.not_eq_true] at hdd
      cases zipFile with
      | none => simp [servePackageZip, hdd]
      | some bytes =>
        rcases hgate with hs | hs | hs <;>
          simp [servePackageZip, hdd, hs, STATUS_PENDING, STATUS_FAILED, STATUS_IGNORED]

/-- Witness for c2_amended_zip_gate: a failed package with clean path
components whose archive file exists on disk is answered 503 with the
shorter failed message. -/
theorem c2_witness :
    servePackageZip [⟨"a/b@1.0.0", STATUS_FAILED⟩] "a" "b" "1.0.0" (some [7, 7]) =
      Response.error 503 "Package a/b@1.0.0 failed to download" := by
  have h2 := (c2_amended_zip_gate [⟨"a/b@1.0.0", STATUS_FAILED⟩] "a" "b" "1.0.0"
    (Or.inr (Or.inl (by decide)))).2.2.1 [7, 7] (by decide)
  rw [h2]
  decide

theorem readChunks_flatten_aux (chunkSize : Nat) (hc : 0 < chunkSize) :
    ∀ (n : Nat) (l : List Nat), l.length ≤ n →
      (readChunks chunkSize l).flatten = l := by
  intro n
  induction n with
  | zero =>
    intro l hl
    have hnil : l = [] := List.length_eq_zero.mp (Nat.le_zero.mp hl)
    subst hnil
    simp [readChunks]
  | succ n ih =>
    intro l hl
    cases l with
    | nil => simp [readChunks]
    | cons x xs =>
      simp only [readChunks]
      rw [dif_neg (Nat.pos_iff_ne_zero.mp hc)]
      rw [List.flatten_cons]
      have hlen : (List.drop chunkSize (x :: xs)).length ≤ n := by
        simp only [List.length_drop, List.length_cons]
        simp only [List.length_cons] at hl
        omega
      rw [ih (List.drop chunkSize (x :: xs)) hlen]
      exact List.take_append_drop chunkSize (x :: xs)

theorem readChunks_flatten (chunkSize : Nat) (hc : 0 < chunkSize) (l : List Nat) :
    (readChunks chunkSize l).flatten = l :=
  readChunks_flatten_aux chunkSize hc l.length l le_rfl

/-- Claim C7: for every abstract digest primitive, every positive chunk
size and every file contents, the streaming digest over fixed-size chunks
equals the digest of the whole contents at once, so it is independent of
the chunk size. -/
theorem c7_digest_chunk_invariance (digest : List Nat → String)
    (c1 c2 : Nat) (contents : List Nat) (h1 : 0 < c1) (h2 : 0 < c2) :
    compute_sha1 digest c1 contents = digest contents ∧
    compute_sha1 digest c1 contents = compute_sha1 digest c2 contents := by
  have e1 : compute_sha1 digest c1 contents = digest contents := by
    unfold compute_sha1
    rw [readChunks_flatten c1 h1]
  have e2 : compute_sha1 digest c2 contents = digest contents := by
    unfold compute_sha1
    rw [readChunks_flatten c2 h2]
  exact ⟨e1, e1.trans e2.symm⟩

/-- A concrete digest primitive used by witnesses: the decimal rendering
of the byte count. -/
def lengthDigest (l : List Nat) : String := toString l.length

/-- Witness for c7_digest_chunk_invariance: a seven-byte file read in
chunks of three hashes like the whole file, and like the same file read
in chunks of 8192 as the source does. -/
theorem c7_witness :
    compute_sha1 lengthDigest 3 [0, 1, 2, 3, 4, 5, 6] = "7" ∧
    compute_sha1 lengthDigest 3 [0, 1, 2, 3, 4, 5, 6] =
      compute_sha1 lengthDigest 8192 [0, 1, 2, 3, 4, 5, 6] := by
  have h2 := c7_digest_chunk_invariance lengthDigest 3 8192 [0, 1, 2, 3, 4, 5, 6]
    (by decide) (by decide)
  exact ⟨h2.1.trans (by decide), h2.2⟩

theorem syncDiffLoop_decomp (remote : List String) :
    ∀ s : SyncState, ∃ added,
      (syncDiffLoop remote s).newPackages = s.newPackages ++ added ∧
      (syncDiffLoop remote s).packages =
        added.reverse.map (fun i => (⟨i, STATUS_PENDING⟩ : Entry)) ++ s.packages := by
  induction remote with
  | nil =>
    intro s
    exact ⟨[], by simp [syncDiffLoop], by simp [syncDiffLoop]⟩
  | cons q rest ih =>
    intro s
    simp only [syncDiffLoop]
    by_cases hq : q ∈ s.existing
    · rw [if_pos hq]
      exact ih s
    · rw [if_neg hq]
      obtain ⟨added, h1, h2⟩ :=
        ih ⟨⟨q, STATUS_PENDING⟩ :: s.packages, q :: s.existing, s.newPackages ++ [q]⟩
      refine ⟨q :: added, ?_, ?_⟩
      · rw [h1]
        simp
      · rw [h2]
        simp

theorem syncDiffLoop_new_grows (remote : List String) (s : SyncState) (pid : String)
    (h : pid ∈ s.newPackages) : pid ∈ (syncDiffLoop remote s).newPackages := by
  obtain ⟨added, h1, _⟩ := syncDiffLoop_decomp remote s
  rw [h1]
  exact List.mem_append_left added h

theorem syncDiffLoop_mem_new (remote : List String) :
    ∀ (s : SyncState) (pid : String), pid ∈ remote → pid ∉ s.existing →
      pid ∈ (syncDiffLoop remote s).newPackages := by
  induction remote with
  | nil =>
    intro s pid h
    simp at h
  | cons q rest ih =>
    intro s pid hmem hnot
    simp only [syncDiffLoop]
    by_cases hpq : pid = q
    · subst hpq
      rw [if_neg hnot]
      exact syncDiffLoop_new_grows rest _ pid (by simp)
    · have hr : pid ∈ rest := by
        rcases List.mem_cons.mp hmem with h | h
        · exact absurd h hpq
        · exact h
      by_cases hq : q ∈ s.existing
      · rw [if_pos hq]
        exact ih s pid hr hnot
      · rw [if_neg hq]
        exact ih _ pid hr (by simp [hpq, hnot])

theorem runSyncDiff_packages_eq (remote : List String) (registry : List Entry) :
    (runSyncDiff remote registry).packages =
      ((runSyncDiff remote registry).newPackages).reverse.map
        (fun i => (⟨i, STATUS_PENDING⟩ : Entry)) ++ registry := by
  obtain ⟨added, h1, h2⟩ :=
    syncDiffLoop_decomp remote ⟨registry, registry.map Entry.id, []⟩
  unfold runSyncDiff
  rw [h2, h1]
  simp

/-- Counterexample to claim C1 as stated: from an empty registry and the
newest-first upstream listing with a/b@2.0.0 first (newest), the
discovery loop leaves a/b@1.0.0 as the first entry of the registry, so
the newest-known package is not the first entry. -/
theorem c1_counterexample_newest_not_first :
    (runSyncDiff ["a/b@2.0.0", "a/b@1.0.0"] []).packages =
      [⟨"a/b@1.0.0", STATUS_PENDING⟩, ⟨"a/b@2.0.0", STATUS_PENDING⟩] ∧
    ((runSyncDiff ["a/b@2.0.0", "a/b@1.0.0"] []).packages.head?.map Entry.id) =
      some "a/b@1.0.0" ∧
    "a/b@1.0.0" ≠ "a/b@2.0.0" := by
  decide

/-- Claim C1 as amended: every upstream identifier absent from the
registry is inserted as a pending entry at index 0 at the moment it is
processed, so after the run the newly discovered identifiers form a block
at the front of the entry list in reverse upstream-listing order: the
entry list equals the reversed new-package list, as pending entries,
prepended to the old entries.  With a newest-first upstream listing the
first entry is therefore the oldest newly discovered package, and
newest-first ordering is preserved only when at most one new identifier
is discovered. -/
theorem c1_amended_new_block_reversed (remote : List String) (registry : List Entry)
    (pid : String) :
    (runSyncDiff remote registry).packages =
      ((runSyncDiff remote registry).newPackages).reverse.map
        (fun i => (⟨i, STATUS_PENDING⟩ : Entry)) ++ registry ∧
    (pid ∈ remote → pid ∉ registry.map Entry.id →
      pid ∈ (runSyncDiff remote registry).newPackages ∧
      (⟨pid, STATUS_PENDING⟩ : Entry) ∈ (runSyncDiff remote registry).packages) := by
  refine ⟨runSyncDiff_packages_eq remote registry, ?_⟩
  intro h1 h2
  have hmem : pid ∈ (runSyncDiff remote registry).newPackages :=
    syncDiffLoop_mem_new remote ⟨registry, registry.map Entry.id, []⟩ pid h1 h2
  refine ⟨hmem, ?_⟩
  rw [runSyncDiff_packages_eq remote registry]
  exact List.mem_append_left _
    (List.mem_map.mpr ⟨pid, List.mem_reverse.mpr hmem, rfl⟩)

/-- Witness for c1_amended_new_block_reversed: the second identifier of
the listing is new, lands in the new-package list and appears as a
pending entry. -/
theorem c1_witness :
    "a/b@1.0.0" ∈ (runSyncDiff ["a/b@2.0.0", "a/b@1.0.0"] []).newPackages ∧
    (⟨"a/b@1.0.0", STATUS_PENDING⟩ : Entry) ∈
      (runSyncDiff ["a/b@2.0.0", "a/b@1.0.0"] []).packages :=
  (c1_amended_new_block_reversed ["a/b@2.0.0", "a/b@1.0.0"] [] "a/b@1.0.0").2
    (by decide) (by decide)

theorem sync_package_isSome (package_id : String) (o : SyncOutcome) (registry : List Entry)
    (hp : (parse_package_id package_id).isSome) :
    (sync_package package_id o registry).isSome := by
  unfold sync_package
  cases he : parse_package_id package_id with
  | none => rw [he] at hp; simp at hp
  | some t =>
    cases o with
    | fetchError => simp
    | fetched expected actual =>
      by_cases hd : actual = expected
      · simp [hd]
      · simp [hd]

theorem sync_package_eq (package_id : String) (o : SyncOutcome) (registry : List Entry)
    (hp : (parse_package_id package_id).isSome) :
    sync_package package_id o registry =
      some (!outcomeFailed o,
        set_package_status registry package_id
          (if outcomeFailed o then STATUS_FAILED else STATUS_SUCCESS)) := by
  unfold sync_package
  cases he : parse_package_id package_id with
  | none => rw [he] at hp; simp at hp
  | some t =>
    cases o with
    | fetchError => simp [he, outcomeFailed]
    | fetched expected actual =>
      by_cases hd : actual = expected
      · simp [he, outcomeFailed, hd]
      · simp [he, outcomeFailed, hd]

theorem sync_package_some (package_id : String) (o : SyncOutcome) (registry : List Entry)
    (b : Bool) (registry2 : List Entry)
    (h : sync_package package_id o registry = some (b, registry2)) :
    b = !outcomeFailed o ∧
    registry2 = set_package_status registry package_id
      (if outcomeFailed o then STATUS_FAILED else STATUS_SUCCESS) := by
  have hp : (parse_package_id package_id).isSome := by
    by_contra hc
    rw [Option.not_isSome_iff_eq_none] at hc
    unfold sync_package at h
    rw [hc] at h
    exact Option.noConfusion h
  rw [sync_package_eq package_id o registry hp] at h
  simp only [Option.some.injEq, Prod.mk.injEq] at h
  exact ⟨h.1.symm, h.2.symm⟩

theorem syncLoop_untouched (outcomes : String → SyncOutcome) :
    ∀ (wl : List String) (registry : List Entry) (succ fail s2 f2 : Nat)
      (registry2 : List Entry) (pid : String),
      syncLoop outcomes wl registry succ fail = some (s2, f2, registry2) →
      pid ∉ wl →
      get_package_status registry2 pid = get_package_status registry pid := by
  intro wl
  induction wl with
  | nil =>
    intro registry succ fail s2 f2 registry2 pid h _
    simp only [syncLoop, Option.some.injEq, Prod.mk.injEq] at h
    rw [← h.2.2]
  | cons q rest ih =>
    intro registry succ fail s2 f2 registry2 pid h hnot
    have hq : pid ≠ q := fun he => hnot (he ▸ List.mem_cons_self q rest)
    have hrest : pid ∉ rest := fun hm => hnot (List.mem_cons_of_mem q hm)
    simp only [syncLoop] at h
    cases hsp : sync_package q (outcomes q) registry with
    | none => rw [hsp] at h; exact Option.noConfusion h
    | some p =>
      obtain ⟨b, r1⟩ := p
      obtain ⟨hb, hr1⟩ := sync_package_some q (outcomes q) registry b r1 hsp
      rw [hsp] at h
      have hset : get_package_status r1 pid = get_package_status registry pid := by
        rw [hr1]
        exact get_set_ne registry q _ pid hq
      cases b with
      | true =>
        have := ih r1 (succ + 1) fail s2 f2 registry2 pid h hrest
        rw [this, hset]
      | false =>
        have := ih r1 succ (fail + 1) s2 f2 registry2 pid h hrest
        rw [this, hset]

theorem syncLoop_total (outcomes : String → SyncOutcome) :
    ∀ (wl : List String) (registry : List Entry) (succ fail : Nat),
      (∀ pid ∈ wl, (parse_package_id pid).isSome) →
      ∃ s2 f2 registry2,
        syncLoop outcomes wl registry succ fail = some (s2, f2, registry2) ∧
        s2 + f2 = succ + fail + wl.length := by
  intro wl
  induction wl with
  | nil =>
    intro registry succ fail _
    exact ⟨succ, fail, registry, rfl, by simp⟩
  | cons q rest ih =>
    intro registry succ fail hAll
    have hq : (parse_package_id q).isSome := hAll q (List.mem_cons_self q rest)
    have hAll2 : ∀ pid ∈ rest, (parse_package_id pid).isSome :=
      fun pid hm => hAll pid (List.mem_cons_of_mem q hm)
    cases hsp : sync_package q (outcomes q) registry with
    | none =>
      have := sync_package_isSome q (outcomes q) registry hq
      rw [hsp] at this
      simp at this
    | some p =>
      obtain ⟨b, r1⟩ := p
      cases b with
      | true =>
        obtain ⟨s2, f2, r2, hl, hc⟩ := ih r1 (succ + 1) fail hAll2
        refine ⟨s2, f2, r2, ?_, ?_⟩
        · simp only [syncLoop, hsp]
          exact hl
        · simp only [List.length_cons]
          omega
      | false =>
        obtain ⟨s2, f2, r2, hl, hc⟩ := ih r1 succ (fail + 1) hAll2
        refine ⟨s2, f2, r2, ?_, ?_⟩
        · simp only [syncLoop, hsp]
          exact hl
        · simp only [List.length_cons]
          omega

theorem syncLoop_failed_status (outcomes : String → SyncOutcome) :
    ∀ (wl : List String) (registry : List Entry) (succ fail s2 f2 : Nat)
      (registry2 : List Entry) (pid : String),
      syncLoop outcomes wl registry succ fail = some (s2, f2, registry2) →
      wl.Nodup → pid ∈ wl → outcomeFailed (outcomes pid) = true →
      get_package_status registry2 pid = some STATUS_FAILED := by
  intro wl
  induction wl with
  | nil =>
    intro registry succ fail s2 f2 registry2 pid _ _ hmem
    simp at hmem
  | cons q rest ih =>
    intro registry succ fail s2 f2 registry2 pid h hnd hmem hof
    obtain ⟨hqnot, hndr⟩ := List.nodup_cons.mp hnd
    simp only [syncLoop] at h
    cases hsp : sync_package q (outcomes q) registry with
    | none => rw [hsp] at h; exact Option.noConfusion h
    | some p =>
      obtain ⟨b, r1⟩ := p
      obtain ⟨hb, hr1⟩ := sync_package_some q (outcomes q) registry b r1 hsp
      rw [hsp] at h
      by_cases hpq : pid = q
      · subst hpq
        have hr1f : get_package_status r1 pid = some STATUS_FAILED := by
          rw [hr1, hof]
          simp only [if_pos rfl]
          exact get_set_self registry pid STATUS_FAILED
        cases b with
        | true =>
          have := syncLoop_untouched outcomes rest r1 (succ + 1) fail s2 f2 registry2 pid h hqnot
          rw [this, hr1f]
        | false =>
          have := syncLoop_untouched outcomes rest r1 succ (fail + 1) s2 f2 registry2 pid h hqnot
          rw [this, hr1f]
      · have hr : pid ∈ rest := by
          rcases List.mem_cons.mp hmem with he | he
          · exact absurd he hpq
          · exact he
        cases b with
        | true => exact ih r1 (succ + 1) fail s2 f2 registry2 pid h hndr hr hof
        | false => exact ih r1 succ (fail + 1) s2 f2 registry2 pid h hndr hr hof

theorem should_sync_eq_matches (package_id : String) (pl : List String) (b : Bool)
    (h : should_sync_package package_id (some pl) = some b) :
    matchesPolicy package_id pl = b := by
  simp only [should_sync_package] at h
  by_cases hm : package_id ∈ pl
  · rw [if_pos hm] at h
    simp only [Option.some.injEq] at h
    unfold matchesPolicy
    simp [hm, ← h]
  · rw [if_neg hm] at h
    cases he : parse_package_id package_id with
    | none =>
      rw [he] at h
      exact Option.noConfusion h
    | some t =>
      obtain ⟨author, name, version⟩ := t
      rw [he] at h
      simp only [Option.some.injEq] at h
      unfold matchesPolicy
      rw [he]
      simp [hm, ← h]

theorem should_sync_isSome (package_id : String) (pl : List String)
    (hp : (parse_package_id package_id).isSome) :
    (should_sync_package package_id (some pl)).isSome := by
  simp only [should_sync_package]
  by_cases hm : package_id ∈ pl
  · simp [hm]
  · cases he : parse_package_id package_id with
    | none => rw [he] at hp; simp at hp
    | some t => simp [hm, he]

theorem filterWorklist_isSome (pl : List String) :
    ∀ (wl : List String) (registry : List Entry),
      (∀ pid ∈ wl, (parse_package_id pid).isSome) →
      (filterWorklist pl wl registry).isSome := by
  intro wl
  induction wl with
  | nil =>
    intro registry _
    simp [filterWorklist]
  | cons q rest ih =>
    intro registry hAll
    have hq : (parse_package_id q).isSome := hAll q (List.mem_cons_self q rest)
    have hAll2 : ∀ pid ∈ rest, (parse_package_id pid).isSome :=
      fun pid hm => hAll pid (List.mem_cons_of_mem q hm)
    cases hs : should_sync_package q (some pl) with
    | none =>
      have := should_sync_isSome q pl hq
      rw [hs] at this
      simp at this
    | some b =>
      cases b with
      | true =>
        have hrec := ih registry hAll2
        cases hr : filterWorklist pl rest registry with
        | none => rw [hr] at hrec; simp at hrec
        | some p =>
          simp only [filterWorklist, hs, hr]
          rfl
      | false =>
        have hrec := ih (set_package_status registry q STATUS_IGNORED) hAll2
        simp only [filterWorklist, hs]
        exact hrec

theorem filterWorklist_fst (pl : List String) :
    ∀ (wl : List String) (registry : List Entry) (filtered : List String)
      (registry2 : List Entry),
      filterWorklist pl wl registry = some (filtered, registry2) →
      filtered = wl.filter (fun pid => matchesPolicy pid pl) := by
  intro wl
  induction wl with
  | nil =>
    intro registry filtered registry2 h
    simp only [filterWorklist, Option.some.injEq, Prod.mk.injEq] at h
    simp [← h.1]
  | cons q rest ih =>
    intro registry filtered registry2 h
    simp only [filterWorklist] at h
    cases hs : should_sync_package q (some pl) with
    | none => rw [hs] at h; exact Option.noConfusion h
    | some b =>
      rw [hs] at h
      have hmb := should_sync_eq_matches q pl b hs
      cases b with
      | true =>
        cases hr : filterWorklist pl rest registry with
        | none => rw [hr] at h; exact Option.noConfusion h
        | some p =>
          obtain ⟨f1, r1⟩ := p
          rw [hr] at h
          simp only [Option.some.injEq, Prod.mk.injEq] at h
          simp only [List.filter_cons, hmb, if_true]
          rw [← h.1, ih registry f1 r1 hr]
      | false =>
        simp only [List.filter_cons, hmb, if_false]
        exact ih (set_package_status registry q STATUS_IGNORED) filtered registry2 h

theorem filterWorklist_untouched (pl : List String) :
    ∀ (wl : List String) (registry : List Entry) (filtered : List String)
      (registry2 : List Entry) (pid : String),
      filterWorklist pl wl registry = some (filtered, registry2) →
      pid ∉ wl →
      get_package_status registry2 pid = get_package_status registry pid := by
  intro wl
  induction wl with
  | nil =>
    intro registry filtered registry2 pid h _
    simp only [filterWorklist, Option.some.injEq, Prod.mk.injEq] at h
    rw [← h.2]
  | cons q rest ih =>
    intro registry filtered registry2 pid h hnot
    have hq : pid ≠ q := fun he => hnot (he ▸ List.mem_cons_self q rest)
    have hrest : pid ∉ rest := fun hm => hnot (List.mem_cons_of_mem q hm)
    simp only [filterWorklist] at h
    cases hs : should_sync_package q (some pl) with
    | none => rw [hs] at h; exact Option.noConfusion h
    | some b =>
      rw [hs] at h
      cases b with
      | true =>
        cases hr : filterWorklist pl rest registry with
        | none => rw [hr] at h; exact Option.noConfusion h
        | some p =>
          obtain ⟨f1, r1⟩ := p
          rw [hr] at h
          simp only [Option.some.injEq, Prod.mk.injEq] at h
          rw [← h.2]
          exact ih registry f1 r1 pid hr hrest
      | false =>
        have := ih (set_package_status registry q STATUS_IGNORED) filtered registry2
          pid h hrest
        rw [this]
        exact get_set_ne registry q STATUS_IGNORED pid hq

theorem filterWorklist_ignored (pl : List String) :
    ∀ (wl : List String) (registry : List Entry) (filtered : List String)
      (registry2 : List Entry) (pid : String),
      filterWorklist pl wl registry = some (filtered, registry2) →
      pid ∈ wl → matchesPolicy pid pl = false →
      get_package_status registry2 pid = some STATUS_IGNORED := by
  intro wl
  induction wl with
  | nil =>
    intro registry filtered registry2 pid _ hmem
    simp at hmem
  | cons q rest ih =>
    intro registry filtered registry2 pid h hmem hmf
    simp only [filterWorklist] at h
    cases hs : should_sync_package q (some pl) with
    | none => rw [hs] at h; exact Option.noConfusion h
    | some b =>
      rw [hs] at h
      have hmb := should_sync_eq_matches q pl b hs
      by_cases hpq : pid = q
      · subst hpq
        have hbf : b = false := by rw [← hmb, hmf]
        subst hbf
        by_cases hr : pid ∈ rest
        · exact ih (set_package_status registry pid STATUS_IGNORED) filtered registry2
            pid h hr hmf
        · have := filterWorklist_untouched pl rest
            (set_package_status registry pid STATUS_IGNORED) filtered registry2 pid h hr
          rw [this]
          exact get_set_self registry pid STATUS_IGNORED
      · have hr : pid ∈ rest := by
          rcases List.mem_cons.mp hmem with he | he
          · exact absurd he hpq
          · exact he
        cases b with
        | true =>
          cases hrec : filterWorklist pl rest registry with
          | none => rw [hrec] at h; exact Option.noConfusion h
          | some p =>
            obtain ⟨f1, r1⟩ := p
            rw [hrec] at h
            simp only [Option.some.injEq, Prod.mk.injEq] at h
            rw [← h.2]
            exact ih registry f1 r1 pid hrec hr hmf
        | false =>
          exact ih (set_package_status registry q STATUS_IGNORED) filtered registry2
            pid h hr hmf

theorem filterWorklist_matched (pl : List String) :
    ∀ (wl : List String) (registry : List Entry) (filtered : List String)
      (registry2 : List Entry) (pid : String),
      filterWorklist pl wl registry = some (filtered, registry2) →
      matchesPolicy pid pl = true →
      get_package_status registry2 pid = get_package_status registry pid := by
  intro wl
  induction wl with
  | nil =>
    intro registry filtered registry2 pid h _
    simp only [filterWorklist, Option.some.injEq, Prod.mk.injEq] at h
    rw [← h.2]
  | cons q rest ih =>
    intro registry filtered registry2 pid h hmt
    simp only [filterWorklist] at h
    cases hs : should_sync_package q (some pl) with
    | none => rw [hs] at h; exact Option.noConfusion h
    | some b =>
      rw [hs] at h
      have hmb := should_sync_eq_matches q pl b hs
      cases b with
      | true =>
        cases hrec : filterWorklist pl rest registry with
        | none => rw [hrec] at h; exact Option.noConfusion h
        | some p =>
          obtain ⟨f1, r1⟩ := p
          rw [hrec] at h
          simp only [Option.some.injEq, Prod.mk.injEq] at h
          rw [← h.2]
          exact ih registry f1 r1 pid hrec hmt
      | false =>
        have hpq : pid ≠ q := by
          intro he
          rw [he, hmb] at hmt
          exact Bool.noConfusion hmt
        have := ih (set_package_status registry q STATUS_IGNORED) filtered registry2
          pid h hmt
        rw [this]
        exact get_set_ne registry q STATUS_IGNORED pid hpq

/-- Claim C5: with a sync policy configured, the work-list filter keeps
exactly the identifiers matching the policy (exact or package-name form);
every non-matching identifier is removed from the work-list, is marked
ignored in the registry, and is still ignored after the download loop over
the filtered work-list (so it is never downloaded in that run), while
matching identifiers stay on the work-list with their status untouched.
All work-list identifiers are assumed well formed, since a malformed one
raises out of the filter. -/
theorem c5_policy_filter (pl wl : List String) (registry : List Entry) (pid : String)
    (hAll : ∀ p ∈ wl, (parse_package_id p).isSome) :
    (∃ filtered registry2, filterWorklist pl wl registry = some (filtered, registry2)) ∧
    (∀ filtered registry2, filterWorklist pl wl registry = some (filtered, registry2) →
      filtered = wl.filter (fun p => matchesPolicy p pl) ∧
      (pid ∈ wl → matchesPolicy pid pl = false →
        pid ∉ filtered ∧
        get_package_status registry2 pid = some STATUS_IGNORED ∧
        (∀ outcomes succ failures registry3,
          syncLoop outcomes filtered registry2 0 0 = some (succ, failures, registry3) →
          get_package_status registry3 pid = some STATUS_IGNORED)) ∧
      (pid ∈ wl → matchesPolicy pid pl = true →
        pid ∈ filtered ∧
        get_package_status registry2 pid = get_package_status registry pid)) := by
  constructor
  · have h := filterWorklist_isSome pl wl registry hAll
    cases hfw : filterWorklist pl wl registry with
    | none => rw [hfw] at h; simp at h
    | some p =>
      obtain ⟨f1, r1⟩ := p
      exact ⟨f1, r1, rfl⟩
  · intro filtered registry2 hfw
    have hfst := filterWorklist_fst pl wl registry filtered registry2 hfw
    refine ⟨hfst, ?_, ?_⟩
    · intro hmem hmf
      have hnotf : pid ∉ filtered := by
        rw [hfst]
        simp [List.mem_filter, hmf]
      refine ⟨hnotf,
        filterWorklist_ignored pl wl registry filtered registry2 pid hfw hmem hmf, ?_⟩
      intro outcomes succ failures registry3 hloop
      have hu := syncLoop_untouched outcomes filtered registry2 0 0 succ failures
        registry3 pid hloop hnotf
      rw [hu]
      exact filterWorklist_ignored pl wl registry filtered registry2 pid hfw hmem hmf
    · intro hmem hmt
      refine ⟨?_, filterWorklist_matched pl wl registry filtered registry2 pid hfw hmt⟩
      rw [hfst]
      exact List.mem_filter.mpr ⟨hmem, hmt⟩

/-- Witness for c5_policy_filter on the scenario of the spec: with policy
a/b, the discovered package c/d@2.0.0 is dropped from the work-list and
ends marked ignored, while a/b@1.0.0 stays on the work-list. -/
theorem c5_witness :
    "c/d@2.0.0" ∉ (["a/b@1.0.0"] : List String) ∧
    get_package_status
      [⟨"a/b@1.0.0", STATUS_PENDING⟩, ⟨"c/d@2.0.0", STATUS_IGNORED⟩] "c/d@2.0.0" =
      some STATUS_IGNORED := by
  have h := (c5_policy_filter ["a/b"] ["a/b@1.0.0", "c/d@2.0.0"]
    [⟨"a/b@1.0.0", STATUS_PENDING⟩, ⟨"c/d@2.0.0", STATUS_PENDING⟩] "c/d@2.0.0"
    (by decide)).2 ["a/b@1.0.0"]
    [⟨"a/b@1.0.0", STATUS_PENDING⟩, ⟨"c/d@2.0.0", STATUS_IGNORED⟩] (by decide)
  obtain ⟨-, h2, -⟩ := h
  obtain ⟨hnot, hign, -⟩ := h2 (by decide) (by decide)
  exact ⟨hnot, hign⟩

/-- Claim C8: over any work-list of well-formed, distinct identifiers,
the download loop processes every package (the success and failure counts
sum to the work-list length, so no failure aborts the run), and every
package whose sync raises a fetch or IO error, or whose downloaded
archive digest mismatches the expected digest, ends with registry status
failed. -/
theorem c8_sync_failure_isolation (outcomes : String → SyncOutcome) (wl : List String)
    (registry : List Entry) (pid : String)
    (hAll : ∀ p ∈ wl, (parse_package_id p).isSome) (hnd : wl.Nodup) :
    (∃ succ failures registry2,
      syncLoop outcomes wl registry 0 0 = some (succ, failures, registry2) ∧
      succ + failures = wl.length) ∧
    (∀ succ failures registry2,
      syncLoop outcomes wl registry 0 0 = some (succ, failures, registry2) →
      pid ∈ wl →
      (outcomes pid = SyncOutcome.fetchError ∨
        ∃ expected actual, outcomes pid = SyncOutcome.fetched expected actual ∧
          actual ≠ expected) →
      get_package_status registry2 pid = some STATUS_FAILED) := by
  constructor
  · obtain ⟨s2, f2, r2, hl, hc⟩ := syncLoop_total outcomes wl registry 0 0 hAll
    exact ⟨s2, f2, r2, hl, by omega⟩
  · intro succ failures registry2 hl hmem hfail
    have hof : outcomeFailed (outcomes pid) = true := by
      rcases hfail with he | ⟨expected, actual, he, hne⟩
      · rw [he]; rfl
      · rw [he]; simp [outcomeFailed, hne]
    exact syncLoop_failed_status outcomes wl registry 0 0 succ failures registry2 pid
      hl hnd hmem hof

/-- A concrete outcome oracle used by the witness of the download loop:
the first package hits a fetch error, every other package downloads with
a matching digest. -/
def sampleOutcomes (package_id : String) : SyncOutcome :=
  if package_id = "a/b@1.0.0" then SyncOutcome.fetchError
  else SyncOutcome.fetched "d41d8cd9" "d41d8cd9"

/-- Witness for c8_sync_failure_isolation: after a run over two packages
where the first hits a fetch error and the second succeeds, the first is
marked failed in the final registry. -/
theorem c8_witness :
    get_package_status [⟨"a/b@1.0.0", STATUS_FAILED⟩, ⟨"c/d@2.0.0", STATUS_SUCCESS⟩]
      "a/b@1.0.0" = some STATUS_FAILED := by
  exact (c8_sync_failure_isolation sampleOutcomes ["a/b@1.0.0", "c/d@2.0.0"] []
    "a/b@1.0.0" (by decide) (by decide)).2 1 1
    [⟨"a/b@1.0.0", STATUS_FAILED⟩, ⟨"c/d@2.0.0", STATUS_SUCCESS⟩]
    (by decide) (by decide) (Or.inl (by decide))

theorem verify_package_none_iff (digest : List Nat → String) (package_id : String)
    (sp : StoredPackage) :
    verify_package digest package_id sp = none ↔
      ∃ zipBytes recorded, sp.zip = some zipBytes ∧
        sp.hashRecord = some (some recorded) ∧ digest zipBytes = recorded ∧
        sp.elmJson = true := by
  obtain ⟨z, hr, e⟩ := sp
  cases z with
  | none => simp [verify_package]
  | some zipBytes =>
    cases hr with
    | none => simp [verify_package]
    | some ho =>
      cases ho with
      | none => simp [verify_package]
      | some recorded =>
        by_cases hd : digest zipBytes = recorded
        · cases e with
          | false => simp [verify_package, hd]
          | true => simp [verify_package, hd]
        · simp [verify_package, hd]

theorem collectVerifyErrors_spec (digest : List Nat → String)
    (store : String → String → String → StoredPackage) :
    ∀ registry : List Entry,
      (∀ pkg ∈ registry, pkg.status = STATUS_SUCCESS →
        (parse_package_id pkg.id).isSome) →
      ∃ errs, collectVerifyErrors digest store registry = some errs ∧
        (errs = [] ↔ ∀ pkg ∈ registry, pkg.status = STATUS_SUCCESS →
          ∀ author name version,
            parse_package_id pkg.id = some (author, name, version) →
            verify_package digest pkg.id (store author name version) = none) := by
  intro registry
  induction registry with
  | nil =>
    intro _
    exact ⟨[], rfl, by simp⟩
  | cons pkg rest ih =>
    intro hAll
    have hAll2 : ∀ p ∈ rest, p.status = STATUS_SUCCESS →
        (parse_package_id p.id).isSome :=
      fun p hm hs => hAll p (List.mem_cons_of_mem pkg hm) hs
    obtain ⟨errs, hc, hiff⟩ := ih hAll2
    by_cases hst : pkg.status = STATUS_SUCCESS
    · have hp := hAll pkg (List.mem_cons_self pkg rest) hst
      cases he : parse_package_id pkg.id with
      | none => rw [he] at hp; simp at hp
      | some t =>
        obtain ⟨author, name, version⟩ := t
        cases hv : verify_package digest pkg.id (store author name version) with
        | none =>
          refine ⟨errs, ?_, ?_⟩
          · simp only [collectVerifyErrors, hst, he, hv, if_true]
            exact hc
          · rw [hiff]
            constructor
            · intro hall2 p hm hs a n v hpe
              rcases List.mem_cons.mp hm with rfl | hm2
              · rw [he] at hpe
                simp only [Option.some.injEq, Prod.mk.injEq] at hpe
                obtain ⟨ha, hn, hver⟩ := hpe
                subst ha
                subst hn
                subst hver
                exact hv
              · exact hall2 p hm2 hs a n v hpe
            · intro hall p hm hs a n v hpe
              exact hall p (List.mem_cons_of_mem pkg hm) hs a n v hpe
        | some err =>
          refine ⟨err :: errs, ?_, ?_⟩
          · simp [collectVerifyErrors, hst, he, hv, hc]
          · constructor
            · intro hfalse
              simp at hfalse
            · intro hall
              exfalso
              have hcontra := hall pkg (List.mem_cons_self pkg rest) hst
                author name version he
              rw [hv] at hcontra
              exact Option.noConfusion hcontra
    · refine ⟨errs, ?_, ?_⟩
      · simp only [collectVerifyErrors, hst, if_false]
        exact hc
      · rw [hiff]
        constructor
        · intro hall2 p hm hs a n v hpe
          rcases List.mem_cons.mp hm with rfl | hm2
          · exact absurd hs hst
          · exact hall2 p hm2 hs a n v hpe
        · intro hall p hm hs a n v hpe
          exact hall p (List.mem_cons_of_mem pkg hm) hs a n v hpe

/-- Claim C9: run_verify passes an empty registry at once; the overall
result is true exactly when every success entry passes all its checks,
and a single package passes its checks exactly when its archive exists,
its digest record exists and parses, the recomputed digest of the archive
equals the recorded one, and its manifest exists.  Every failing package
only contributes a collected error and never aborts the sweep.  All
success identifiers are assumed well formed, since a malformed one raises
out of the sweep. -/
theorem c9_run_verify (digest : List Nat → String)
    (store : String → String → String → StoredPackage) (registry : List Entry)
    (hAll : ∀ pkg ∈ registry, pkg.status = STATUS_SUCCESS →
      (parse_package_id pkg.id).isSome) :
    (registry = [] → run_verify digest store registry = some true) ∧
    (∃ result, run_verify digest store registry = some result ∧
      (result = true ↔ ∀ pkg ∈ registry, pkg.status = STATUS_SUCCESS →
        ∀ author name version,
          parse_package_id pkg.id = some (author, name, version) →
          verify_package digest pkg.id (store author name version) = none)) ∧
    (∀ package_id sp, verify_package digest package_id sp = none ↔
      ∃ zipBytes recorded, sp.zip = some zipBytes ∧
        sp.hashRecord = some (some recorded) ∧ digest zipBytes = recorded ∧
        sp.elmJson = true) := by
  refine ⟨?_, ?_, fun package_id sp => verify_package_none_iff digest package_id sp⟩
  · intro h
    subst h
    rfl
  · by_cases hreg : registry = []
    · subst hreg
      exact ⟨true, rfl, by simp⟩
    · obtain ⟨errs, hc, hiff⟩ := collectVerifyErrors_spec digest store registry hAll
      have hne : registry.isEmpty = false := by
        cases registry with
        | nil => exact absurd rfl hreg
        | cons a b => rfl
      refine ⟨errs.isEmpty, ?_, ?_⟩
      · simp [run_verify, hne, hc]
      · have hemp : errs.isEmpty = true ↔ errs = [] := by
          cases errs <;> simp
        rw [hemp]
        exact hiff

/-- A concrete content store used by the verifier witness: the single
success package has a three-byte archive, a digest record matching
lengthDigest, and a manifest. -/
def sampleStore (author name version : String) : StoredPackage :=
  if author = "a" ∧ name = "b" ∧ version = "1.0.0" then
    ⟨some [1, 2, 3], some (some "3"), true⟩
  else ⟨none, none, false⟩

/-- Witness for c9_run_verify: a registry with one consistent success
package and one pending package passes verification. -/
theorem c9_witness :
    run_verify lengthDigest sampleStore
      [⟨"a/b@1.0.0", "success"⟩, ⟨"x/y@2.0.0", "pending"⟩] = some true := by
  obtain ⟨-, ⟨result, hrv, hiff⟩, -⟩ := c9_run_verify lengthDigest sampleStore
    [⟨"a/b@1.0.0", "success"⟩, ⟨"x/y@2.0.0", "pending"⟩] (by decide)
  have hres : result = true := by
    apply hiff.mpr
    intro pkg hm hs a n v hpe
    have hm2 : pkg = (⟨"a/b@1.0.0", "success"⟩ : Entry) ∨
        pkg = (⟨"x/y@2.0.0", "pending"⟩ : Entry) := by
      simpa using hm
    rcases hm2 with rfl | rfl
    · have hev : parse_package_id "a/b@1.0.0" = some ("a", "b", "1.0.0") := by decide
      rw [hev] at hpe
      simp only [Option.some.injEq, Prod.mk.injEq] at hpe
      obtain ⟨ha, hn, hv2⟩ := hpe
      subst ha
      subst hn
      subst hv2
      decide
    · exact absurd hs (by decide)
  rw [hres] at hrv
  exact hrv
